import Mathlib

/-!
Shallow embedding of the LiveDraftArena contracts
(`src/contracts/livedraft-arena/src/draft_room.rs` and `lib.rs`).

Player identities (`Owner`) and chain identifiers (`ChainId`) are opaque
values with decidable equality; we model them as `Nat`.  The Rust code
signals every failure by `panic!` before performing any state mutation and
the host runtime discards the transaction on panic; we embed each operation
as a pure function threading the state explicitly, returning the state as
it stands at the point of the panic together with the typed error the
panic message carries.  `MapView` is embedded as an association list whose
`insert` overwrites the first binding of the key and whose `get` reads the
first binding.  All `u8`/`u32` fields stay within machine range in every
state the claims quantify over (turn counters are bounded by the roster
length, which is bounded by `max_players : u8`), so they are modelled as
`Nat`.
-/

/-- Player identity (Linera `Owner`), an opaque id with equality. -/
abbrev Owner := Nat

/-- Chain identifier (Linera `ChainId`), an opaque id with equality. -/
abbrev ChainId := Nat

/-- `DraftStatus` from `draft_room.rs`. -/
inductive DraftStatus where
  | Waiting
  | Drafting
  | Finished
deriving DecidableEq, Repr

/-- `DraftItem` from `draft_room.rs`. -/
structure DraftItem where
  id : Nat
  name : String
  power : Nat
deriving DecidableEq, Repr

/-- `DraftRoomError` from `draft_room.rs`. -/
inductive DraftRoomError where
  | NotWaiting
  | RoomFull
  | AlreadyJoined
  | NotCreator
  | NotDrafting
  | NotYourTurn
  | ItemNotFound
  | AuthenticationRequired
  | DraftNotFinished
deriving DecidableEq, Repr

/-- `DraftRoomOperation` from `draft_room.rs`. -/
inductive DraftRoomOperation where
  | JoinRoom
  | StartDraft
  | PickItem (item_id : Nat)
  | FinalizeDraft
deriving DecidableEq, Repr

/-- `DraftRoomMessage` from `draft_room.rs`: an empty enum. -/
inductive DraftRoomMessage where
deriving Repr

instance : DecidableEq DraftRoomMessage := fun a _ => nomatch a

instance {ε α : Type} [DecidableEq ε] [DecidableEq α] : DecidableEq (Except ε α) := fun a b =>
  match a, b with
  | .error e, .error f =>
    if h : e = f then .isTrue (by rw [h]) else .isFalse (by simp [h])
  | .ok x, .ok y =>
    if h : x = y then .isTrue (by rw [h]) else .isFalse (by simp [h])
  | .error _, .ok _ => .isFalse (by simp)
  | .ok _, .error _ => .isFalse (by simp)

/-- Association-list embedding of `MapView<Owner, Vec<DraftItem>>`. -/
abbrev PicksMap := List (Owner × List DraftItem)

/-- `MapView::get`: the value bound to `k`, if any. -/
def mapGet (m : PicksMap) (k : Owner) : Option (List DraftItem) :=
  match m with
  | [] => none
  | (k', v') :: rest => if k' = k then some v' else mapGet rest k

/-- `MapView::insert`: overwrite the binding of `k`, or append a fresh one. -/
def mapInsert (m : PicksMap) (k : Owner) (v : List DraftItem) : PicksMap :=
  match m with
  | [] => [(k, v)]
  | (k', v') :: rest => if k' = k then (k, v) :: rest else (k', v') :: mapInsert rest k v

/-- `DraftRoom` state from `draft_room.rs`. -/
structure DraftRoom where
  players : List Owner
  max_players : Nat
  current_turn : Nat
  round : Nat
  max_rounds : Nat
  pool : List DraftItem
  picks : PicksMap
  status : DraftStatus
  creator : Option Owner
deriving DecidableEq, Repr

/-- `DraftRoom::initialize_pool`: the hardcoded Wave-5 catalog. -/
def initialize_pool : List DraftItem :=
  [ ⟨1, "Lightning Bolt", 100⟩,
    ⟨2, "Counterspell", 90⟩,
    ⟨3, "Giant Growth", 80⟩,
    ⟨4, "Dark Ritual", 85⟩,
    ⟨5, "Healing Salve", 70⟩,
    ⟨6, "Ancestral Recall", 95⟩,
    ⟨7, "Black Lotus", 100⟩,
    ⟨8, "Mox Pearl", 90⟩,
    ⟨9, "Time Walk", 95⟩,
    ⟨10, "Swords to Plowshares", 85⟩,
    ⟨11, "Force of Will", 90⟩,
    ⟨12, "Brainstorm", 75⟩,
    ⟨13, "Sol Ring", 85⟩,
    ⟨14, "Path to Exile", 80⟩,
    ⟨15, "Demonic Tutor", 90⟩ ]

/-- `DraftRoom::get_current_player`: snake-draft active player. -/
def get_current_player (s : DraftRoom) : Option Owner :=
  if s.players.isEmpty then
    none
  else
    let player_count := s.players.length
    let player_index :=
      if s.round % 2 = 1 then
        s.current_turn % player_count
      else
        (player_count - 1) - (s.current_turn % player_count)
    s.players.get? player_index

/-- `DraftRoom::advance_turn`. -/
def advance_turn (s : DraftRoom) : DraftRoom :=
  let player_count := s.players.length
  let s1 := { s with current_turn := s.current_turn + 1 }
  if s1.current_turn ≥ player_count then
    let s2 := { s1 with current_turn := 0, round := s1.round + 1 }
    if s2.round > s2.max_rounds then { s2 with status := .Finished } else s2
  else
    s1

/-- `Vec::iter().position(|item| item.id == item_id)` followed by
`Vec::remove`, fused: the first pool entry with the given id together with
the pool with that entry removed, or `none` when no entry matches. -/
def removeFirst (item_id : Nat) : List DraftItem → Option (DraftItem × List DraftItem)
  | [] => none
  | item :: rest =>
    if item.id = item_id then
      some (item, rest)
    else
      match removeFirst item_id rest with
      | none => none
      | some (x, rest') => some (x, item :: rest')

/-- Outcome of one `DraftRoom::execute_operation` call: the returned
message list or the error the panic carries, plus the state at that point. -/
structure ExecResult where
  result : Except DraftRoomError (List DraftRoomMessage)
  state : DraftRoom
deriving DecidableEq, Repr

/-- `DraftRoom::execute_operation` from `draft_room.rs`.  `signer?` is the
authenticated signer supplied by the runtime (`none` when the operation has
no authenticated signer). -/
def execute_operation (s : DraftRoom) (op : DraftRoomOperation) (signer? : Option Owner) :
    ExecResult :=
  match op with
  | .JoinRoom =>
    match signer? with
    | none => ⟨.error .AuthenticationRequired, s⟩
    | some signer =>
      if s.status ≠ .Waiting then ⟨.error .NotWaiting, s⟩
      else if s.players.length ≥ s.max_players then ⟨.error .RoomFull, s⟩
      else if s.players.contains signer then ⟨.error .AlreadyJoined, s⟩
      else
        ⟨.ok [], { s with players := s.players ++ [signer],
                          picks := mapInsert s.picks signer [] }⟩
  | .StartDraft =>
    match signer? with
    | none => ⟨.error .AuthenticationRequired, s⟩
    | some signer =>
      if s.creator ≠ some signer then ⟨.error .NotCreator, s⟩
      else if s.status ≠ .Waiting then ⟨.error .NotWaiting, s⟩
      else
        ⟨.ok [], { s with pool := initialize_pool, status := .Drafting,
                          current_turn := 0, round := 1 }⟩
  | .PickItem item_id =>
    match signer? with
    | none => ⟨.error .AuthenticationRequired, s⟩
    | some signer =>
      if s.status ≠ .Drafting then ⟨.error .NotDrafting, s⟩
      else
        match get_current_player s with
        | none => ⟨.error .NotYourTurn, s⟩
        | some current_player =>
          if current_player ≠ signer then ⟨.error .NotYourTurn, s⟩
          else
            match removeFirst item_id s.pool with
            | none => ⟨.error .ItemNotFound, s⟩
            | some (picked_item, pool') =>
              let player_picks := (mapGet s.picks signer).getD []
              let s' := { s with pool := pool',
                                 picks := mapInsert s.picks signer
                                   (player_picks ++ [picked_item]) }
              ⟨.ok [], advance_turn s'⟩
  | .FinalizeDraft =>
    if s.status ≠ .Finished then ⟨.error .DraftNotFinished, s⟩
    else ⟨.ok [], s⟩

/-- `RoomStatus` from `lib.rs` (lobby metadata). -/
inductive RoomStatus where
  | Waiting
  | Drafting
  | Finished
deriving DecidableEq, Repr

/-- `DraftRoomMetadata` from `lib.rs`. -/
structure DraftRoomMetadata where
  room_name : String
  max_players : Nat
  status : RoomStatus
deriving DecidableEq, Repr

/-- `LobbyError` from `lib.rs`. -/
inductive LobbyError where
  | EmptyRoomName
  | InvalidMaxPlayers
  | AuthenticationRequired
deriving DecidableEq, Repr

/-- `LobbyOperation` from `lib.rs`. -/
inductive LobbyOperation where
  | CreateRoom (room_name : String) (max_players : Nat)
deriving DecidableEq, Repr

/-- Association-list embedding of `MapView<ChainId, DraftRoomMetadata>`. -/
abbrev RoomsMap := List (ChainId × DraftRoomMetadata)

/-- `MapView::insert` for the lobby rooms map. -/
def roomsInsert (m : RoomsMap) (k : ChainId) (v : DraftRoomMetadata) : RoomsMap :=
  match m with
  | [] => [(k, v)]
  | (k', v') :: rest => if k' = k then (k, v) :: rest else (k', v') :: roomsInsert rest k v

/-- `Lobby` state from `lib.rs`. -/
structure Lobby where
  rooms : RoomsMap
deriving DecidableEq, Repr

/-- `Message` from `lib.rs`: an empty enum. -/
inductive Message where
deriving Repr

instance : DecidableEq Message := fun a _ => nomatch a

/-- `LiveDraftArenaError` from `lib.rs`. -/
inductive LiveDraftArenaError where
  | Lobby (e : LobbyError)
  | DraftRoom (e : DraftRoomError)
deriving DecidableEq, Repr

/-- `LiveDraftArena` unified state from `lib.rs`. -/
inductive LiveDraftArena where
  | Lobby (lobby : Lobby)
  | DraftRoom (room : DraftRoom)
deriving DecidableEq, Repr

/-- Unified `Operation` from `lib.rs`. -/
inductive Operation where
  | CreateRoom (room_name : String) (max_players : Nat)
  | JoinRoom
  | StartDraft
  | PickItem (item_id : Nat)
  | FinalizeDraft
deriving DecidableEq, Repr

/-- Outcome of one `Lobby::execute_operation` call. -/
structure LobbyResult where
  result : Except LobbyError (List Unit)
  state : Lobby
deriving DecidableEq, Repr

/-- `Lobby::execute_operation` from `lib.rs`.  `fresh_chain` is the fresh
chain identifier the runtime's `open_chain` returns. -/
def lobby_execute (l : Lobby) (op : LobbyOperation) (signer? : Option Owner)
    (fresh_chain : ChainId) : LobbyResult :=
  match op with
  | .CreateRoom room_name max_players =>
    if room_name.trim.isEmpty then ⟨.error .EmptyRoomName, l⟩
    else if max_players < 2 ∨ max_players > 8 then ⟨.error .InvalidMaxPlayers, l⟩
    else
      match signer? with
      | none => ⟨.error .AuthenticationRequired, l⟩
      | some _ =>
        let metadata : DraftRoomMetadata :=
          { room_name := room_name, max_players := max_players, status := .Waiting }
        ⟨.ok [], { l with rooms := roomsInsert l.rooms fresh_chain metadata }⟩

/-- Outcome of one `LiveDraftArena::execute_operation` call. -/
structure ArenaResult where
  result : Except LiveDraftArenaError (List Message)
  state : LiveDraftArena
deriving DecidableEq, Repr

/-- `LiveDraftArena::execute_operation` from `lib.rs`: dispatch on the
(state variant, operation) pair, with a catch-all that returns an empty
message list and leaves the state untouched. -/
def arena_execute (a : LiveDraftArena) (op : Operation) (signer? : Option Owner)
    (fresh_chain : ChainId) : ArenaResult :=
  match a, op with
  | .Lobby lobby, .CreateRoom room_name max_players =>
    let r := lobby_execute lobby (.CreateRoom room_name max_players) signer? fresh_chain
    match r.result with
    | .error e => ⟨.error (.Lobby e), .Lobby r.state⟩
    | .ok _ => ⟨.ok [], .Lobby r.state⟩
  | .DraftRoom room, .JoinRoom =>
    let r := execute_operation room .JoinRoom signer?
    match r.result with
    | .error e => ⟨.error (.DraftRoom e), .DraftRoom r.state⟩
    | .ok _ => ⟨.ok [], .DraftRoom r.state⟩
  | .DraftRoom room, .StartDraft =>
    let r := execute_operation room .StartDraft signer?
    match r.result with
    | .error e => ⟨.error (.DraftRoom e), .DraftRoom r.state⟩
    | .ok _ => ⟨.ok [], .DraftRoom r.state⟩
  | .DraftRoom room, .PickItem item_id =>
    let r := execute_operation room (.PickItem item_id) signer?
    match r.result with
    | .error e => ⟨.error (.DraftRoom e), .DraftRoom r.state⟩
    | .ok _ => ⟨.ok [], .DraftRoom r.state⟩
  | .DraftRoom room, .FinalizeDraft =>
    let r := execute_operation room .FinalizeDraft signer?
    match r.result with
    | .error e => ⟨.error (.DraftRoom e), .DraftRoom r.state⟩
    | .ok _ => ⟨.ok [], .DraftRoom r.state⟩
  | .Lobby lobby, _ => ⟨.ok [], .Lobby lobby⟩
  | .DraftRoom room, .CreateRoom _ _ => ⟨.ok [], .DraftRoom room⟩

/-- The `DraftRoom` state right after `load` + `instantiate` on a fresh
room chain: empty roster and pool, `Waiting`, `round = 1`, `max_rounds = 3`,
`max_players` from the parameters and `creator` from the instantiation
argument. -/
def initialRoom (mp : Nat) (c : Owner) : DraftRoom :=
  { players := [], max_players := mp, current_turn := 0, round := 1,
    max_rounds := 3, pool := [], picks := [], status := .Waiting,
    creator := some c }

/-- States of a `DraftRoom` instance reachable from creation by any
sequence of operations (each applied with an arbitrary signer). -/
inductive Reachable : DraftRoom → Prop where
  | init (mp : Nat) (c : Owner) : Reachable (initialRoom mp c)
  | step (s : DraftRoom) (op : DraftRoomOperation) (g : Option Owner) :
      Reachable s → Reachable (execute_operation s op g).state

/-- `SuccRun s0 k s'`: starting from `s0`, some sequence of `k` `PickItem`
operations, each of which succeeds, ends in state `s'`. -/
inductive SuccRun (s0 : DraftRoom) : Nat → DraftRoom → Prop where
  | zero : SuccRun s0 0 s0
  | succ {s' s'' : DraftRoom} {k : Nat} (caller : Owner) (item_id : Nat)
      (msgs : List DraftRoomMessage) :
      SuccRun s0 k s' →
      execute_operation s' (.PickItem item_id) (some caller) = ⟨.ok msgs, s''⟩ →
      SuccRun s0 (k + 1) s''

/-- Index of the snake-draft active player after `k` total picks of a
fresh draft with `n` players: round is `k / n + 1`, turn is `k % n`. -/
def activeIdx (n k : Nat) : Nat :=
  if (k / n + 1) % 2 = 1 then k % n else n - 1 - k % n

/-- Number of picks the player at roster index `i` holds after `k` total
picks of a fresh snake draft with `n` players: one per completed round,
plus one if the player already picked in the current partial round. -/
def expected_count (n k i : Nat) : Nat :=
  k / n +
    (if (k / n + 1) % 2 = 1 then (if i < k % n then 1 else 0)
     else (if n - k % n ≤ i then 1 else 0))

/-- Length of the pick list the room holds for player `p` (`get` +
`unwrap_or_default`, as `PickItem` reads it). -/
def pickLen (s : DraftRoom) (p : Owner) : Nat :=
  ((mapGet s.picks p).getD []).length

/-- Invariant of a fresh snake draft with roster `P` and `max_rounds = r`
after `k` successful picks: the roster and round budget are unchanged, the
turn and round counters are the division and remainder of `k` by the
roster size, the draft is finished exactly at `k = |P| * r`, and every
player's pick count matches `expected_count`. -/
def C3Inv (P : List Owner) (r k : Nat) (s : DraftRoom) : Prop :=
  s.players = P ∧ s.max_rounds = r ∧
  s.current_turn = k % P.length ∧
  s.round = k / P.length + 1 ∧
  s.status = (if k = P.length * r then DraftStatus.Finished else DraftStatus.Drafting) ∧
  ∀ i : Fin P.length, pickLen s (P.get i) = expected_count P.length k i

/-- Every item the room currently holds: the pool followed by all pick
lists stored in the `picks` map. -/
def itemsOf (s : DraftRoom) : List DraftItem :=
  s.pool ++ (s.picks.map Prod.snd).flatten

/-- Structural invariant of a `DraftRoom` instance: roster and picks-map
keys are duplicate-free, the picks map only holds joined players, in
`Waiting` the pool is empty and all pick lists are empty, and outside
`Waiting` the items held are a permutation of the fixed catalog. -/
def GoodState (s : DraftRoom) : Prop :=
  s.players.Nodup ∧
  (s.picks.map Prod.fst).Nodup ∧
  (∀ pr ∈ s.picks, pr.1 ∈ s.players) ∧
  (s.status = .Waiting → s.pool = [] ∧ ∀ pr ∈ s.picks, pr.2 = ([] : List DraftItem)) ∧
  (s.status ≠ .Waiting → (itemsOf s).Perm initialize_pool)

/-- A two-player drafting room used to evaluate theorems on concrete
inputs. -/
def sampleRoom : DraftRoom :=
  { players := [4, 9], max_players := 2, current_turn := 0, round := 1,
    max_rounds := 3, pool := initialize_pool, picks := [(4, []), (9, [])],
    status := .Drafting, creator := some 4 }

/-- A finished two-player room used to evaluate theorems on concrete
inputs. -/
def finishedRoom : DraftRoom :=
  { players := [4, 9], max_players := 2, current_turn := 0, round := 4,
    max_rounds := 3, pool := [], picks := [(4, []), (9, [])],
    status := .Finished, creator := some 4 }

/-- A one-player, one-round drafting room with a one-item pool, used to
evaluate the draft-completion theorem on a concrete run. -/
def tinyRoom : DraftRoom :=
  { players := [7], max_players := 2, current_turn := 0, round := 1,
    max_rounds := 1, pool := [⟨1, "Lightning Bolt", 100⟩], picks := [(7, [])],
    status := .Drafting, creator := some 7 }

/-- The state the empty-roster counterexample run ends in: the creator of
a fresh capacity-2 room starts the draft before anyone joins. -/
def c7_bad : DraftRoom :=
  (execute_operation (initialRoom 2 1) .StartDraft (some 1)).state

/-- The state `tinyRoom` reaches after its single pick. -/
def tinyFinal : DraftRoom :=
  (execute_operation tinyRoom (.PickItem 1) (some 7)).state

/-- A waiting room with one joined player and spare capacity, used to
evaluate theorems on concrete inputs. -/
def waitingRoom : DraftRoom :=
  { players := [4], max_players := 2, current_turn := 0, round := 1,
    max_rounds := 3, pool := [], picks := [(4, [])], status := .Waiting,
    creator := some 4 }

/-- A waiting room whose roster is at capacity, used to evaluate theorems
on concrete inputs. -/
def fullRoom : DraftRoom :=
  { players := [4, 9], max_players := 2, current_turn := 0, round := 1,
    max_rounds := 3, pool := [], picks := [(4, []), (9, [])],
    status := .Waiting, creator := some 4 }

/-- A two-player room in its second (reversed) round, used to evaluate the
snake-order theorem on a concrete input. -/
def round2Room : DraftRoom :=
  { players := [4, 9], max_players := 2, current_turn := 0, round := 2,
    max_rounds := 3, pool := initialize_pool, picks := [(4, []), (9, [])],
    status := .Drafting, creator := some 4 }

/-- A mid-draft state reached from creation by two joins, a start, and one
pick, used to evaluate the partition theorem on a concrete input. -/
def demoRoom : DraftRoom :=
  (execute_operation
    (execute_operation
      (execute_operation
        (execute_operation (initialRoom 2 4) .JoinRoom (some 4)).state
        .JoinRoom (some 9)).state
      .StartDraft (some 4)).state
    (.PickItem 7) (some 4)).state

/-! ### Helper lemmas -/

theorem state_unchanged_of_error (s : DraftRoom) (op : DraftRoomOperation) (g : Option Owner)
    (e : DraftRoomError) (h : (execute_operation s op g).result = .error e) :
    (execute_operation s op g).state = s := by
  cases op <;> cases g <;>
    simp only [execute_operation] at h ⊢ <;>
    repeat' split at h <;> repeat' split <;> simp_all

theorem pick_not_your_turn (s : DraftRoom) (caller : Owner) (item_id : Nat)
    (hstat : s.status = .Drafting) (hcp : get_current_player s ≠ some caller) :
    execute_operation s (.PickItem item_id) (some caller) = ⟨.error .NotYourTurn, s⟩ := by
  simp only [execute_operation, hstat, ne_eq, not_true_eq_false, if_false]
  cases hg : get_current_player s with
  | none => simp
  | some cp =>
    have hne : cp ≠ caller := by rintro rfl; exact hcp hg
    simp [hne]

theorem removeFirst_eq_none (item_id : Nat) (l : List DraftItem)
    (h : ∀ it ∈ l, it.id ≠ item_id) : removeFirst item_id l = none := by
  induction l with
  | nil => rfl
  | cons a rest ih =>
    simp only [removeFirst]
    rw [if_neg (h a (List.mem_cons_self a rest)),
      ih (fun it hit => h it (List.mem_cons_of_mem _ hit))]

theorem removeFirst_some (item_id : Nat) (l : List DraftItem) (x : DraftItem)
    (l' : List DraftItem) (h : removeFirst item_id l = some (x, l')) :
    x.id = item_id ∧
      ∃ l1 l2, l = l1 ++ x :: l2 ∧ l' = l1 ++ l2 ∧ ∀ y ∈ l1, y.id ≠ item_id := by
  induction l generalizing l' with
  | nil => simp [removeFirst] at h
  | cons a rest ih =>
    simp only [removeFirst] at h
    by_cases ha : a.id = item_id
    · rw [if_pos ha] at h
      simp only [Option.some.injEq, Prod.mk.injEq] at h
      obtain ⟨rfl, rfl⟩ := h
      exact ⟨ha, [], rest, by simp, by simp, by simp⟩
    · rw [if_neg ha] at h
      cases hr : removeFirst item_id rest with
      | none => rw [hr] at h; cases h
      | some pr =>
        obtain ⟨x', rest'⟩ := pr
        rw [hr] at h
        simp only [Option.some.injEq, Prod.mk.injEq] at h
        obtain ⟨rfl, hl⟩ := h
        subst hl
        obtain ⟨hid, l1, l2, he, he', hno⟩ := ih rest' hr
        refine ⟨hid, a :: l1, l2, by simp [he], by simp [he'], ?_⟩
        intro y hy
        rcases List.mem_cons.mp hy with rfl | hy'
        · exact ha
        · exact hno y hy'

theorem mapGet_mapInsert_self (m : PicksMap) (k : Owner) (v : List DraftItem) :
    mapGet (mapInsert m k v) k = some v := by
  induction m with
  | nil => simp [mapInsert, mapGet]
  | cons pr rest ih =>
    obtain ⟨k', v'⟩ := pr
    by_cases hk : k' = k
    · simp [mapInsert, mapGet, hk]
    · simp [mapInsert, mapGet, hk, ih]

theorem mapGet_mapInsert_ne (m : PicksMap) (k q : Owner) (v : List DraftItem)
    (h : k ≠ q) : mapGet (mapInsert m k v) q = mapGet m q := by
  induction m with
  | nil => simp [mapInsert, mapGet, h]
  | cons pr rest ih =>
    obtain ⟨k', v'⟩ := pr
    simp only [mapInsert]
    by_cases hk : k' = k
    · subst hk
      rw [if_pos rfl]
      simp only [mapGet]
      rw [if_neg h, if_neg h]
    · rw [if_neg hk]
      simp only [mapGet]
      by_cases hq : k' = q
      · rw [if_pos hq, if_pos hq]
      · rw [if_neg hq, if_neg hq]
        exact ih

theorem succ_mod_div (n k : Nat) (hn : 0 < n) :
    ((k + 1) % n = if k % n + 1 = n then 0 else k % n + 1) ∧
    ((k + 1) / n = if k % n + 1 = n then k / n + 1 else k / n) := by
  have hm : k % n < n := Nat.mod_lt _ hn
  have hd : n * (k / n) + k % n = k := Nat.div_add_mod k n
  by_cases hw : k % n + 1 = n
  · have hk1 : k + 1 = n * (k / n + 1) := by
      rw [Nat.mul_succ]
      omega
    rw [if_pos hw, if_pos hw, hk1]
    exact ⟨Nat.mul_mod_right n _, Nat.mul_div_cancel_left _ hn⟩
  · have hlt : k % n + 1 < n := Nat.lt_of_le_of_ne hm hw
    have hk1 : k + 1 = n * (k / n) + (k % n + 1) := by omega
    rw [if_neg hw, if_neg hw, hk1]
    constructor
    · rw [Nat.mul_add_mod]
      exact Nat.mod_eq_of_lt hlt
    · rw [Nat.mul_add_div hn]
      rw [Nat.div_eq_of_lt hlt, Nat.add_zero]

theorem expected_count_step (n k i : Nat) (hn : 0 < n) (hi : i < n) :
    expected_count n (k + 1) i =
      expected_count n k i + (if i = activeIdx n k then 1 else 0) := by
  obtain ⟨hmod, hdiv⟩ := succ_mod_div n k hn
  have hm : k % n < n := Nat.mod_lt _ hn
  unfold expected_count activeIdx
  by_cases hw : k % n + 1 = n
  · rw [if_pos hw] at hmod hdiv
    rw [hmod, hdiv]
    generalize k / n = q
    generalize k % n = m at hw hm ⊢
    split_ifs <;> omega
  · rw [if_neg hw] at hmod hdiv
    rw [hmod, hdiv]
    generalize k / n = q
    generalize k % n = m at hw hm ⊢
    split_ifs <;> omega

/-! ### Claim theorems -/

/-- C9: `FinalizeDraft` succeeds exactly when the status is `Finished` and
otherwise fails `DraftNotFinished`; a successful call mutates no state, so
calling it twice in a `Finished` room yields the same success result both
times with no state change. -/
theorem C9_finalize_idempotent (s : DraftRoom) (g g' : Option Owner) :
    (s.status = .Finished →
      execute_operation s .FinalizeDraft g = ⟨.ok [], s⟩ ∧
      execute_operation (execute_operation s .FinalizeDraft g).state .FinalizeDraft g' =
        ⟨.ok [], s⟩) ∧
    (s.status ≠ .Finished →
      execute_operation s .FinalizeDraft g = ⟨.error .DraftNotFinished, s⟩) := by
  constructor
  · intro hf
    have h1 : execute_operation s .FinalizeDraft g = ⟨.ok [], s⟩ := by
      simp [execute_operation, hf]
    refine ⟨h1, ?_⟩
    rw [h1]
    simp [execute_operation, hf]
  · intro hf
    simp [execute_operation, hf]

/-- C9 witness: both consecutive `FinalizeDraft` calls on a concrete
finished room return `ok` with the room unchanged. -/
theorem C9_finalize_idempotent_witness :
    finishedRoom.status = .Finished ∧
    execute_operation finishedRoom .FinalizeDraft (some 4) = ⟨.ok [], finishedRoom⟩ ∧
    execute_operation (execute_operation finishedRoom .FinalizeDraft (some 4)).state
      .FinalizeDraft (some 9) = ⟨.ok [], finishedRoom⟩ :=
  ⟨by decide,
   ((C9_finalize_idempotent finishedRoom (some 4) (some 9)).1 (by decide)).1,
   ((C9_finalize_idempotent finishedRoom (some 4) (some 9)).1 (by decide)).2⟩

/-- C10: dispatching an operation to an instance of the mismatched
component kind (any DraftRoom operation to a Lobby instance, or CreateRoom
to a DraftRoom instance) returns success with an empty message list and
leaves the instance state completely unchanged; no error is reported. -/
theorem C10_mismatched_dispatch (lobby : Lobby) (room : DraftRoom) (op : Operation)
    (g : Option Owner) (f : ChainId) (nm : String) (mp : Nat)
    (hop : ∀ x y, op ≠ Operation.CreateRoom x y) :
    arena_execute (.Lobby lobby) op g f = ⟨.ok [], .Lobby lobby⟩ ∧
    arena_execute (.DraftRoom room) (.CreateRoom nm mp) g f = ⟨.ok [], .DraftRoom room⟩ := by
  constructor
  · cases op with
    | CreateRoom x y => exact absurd rfl (hop x y)
    | JoinRoom => rfl
    | StartDraft => rfl
    | PickItem i => rfl
    | FinalizeDraft => rfl
  · rfl

/-- C10 witness: a concrete JoinRoom sent to an empty lobby and a concrete
CreateRoom sent to a drafting room both succeed with no state change. -/
theorem C10_mismatched_dispatch_witness :
    arena_execute (.Lobby ⟨[]⟩) .JoinRoom (some 4) 0 = ⟨.ok [], .Lobby ⟨[]⟩⟩ ∧
    arena_execute (.DraftRoom sampleRoom) (.CreateRoom "arena" 4) (some 4) 0 =
      ⟨.ok [], .DraftRoom sampleRoom⟩ :=
  C10_mismatched_dispatch ⟨[]⟩ sampleRoom .JoinRoom (some 4) 0 "arena" 4
    (fun _ _ h => Operation.noConfusion h)

/-- C6 counterexample: in a Drafting room a non-creator calling
`StartDraft` fails `NotCreator`, not `NotWaiting` as the claim states,
because the code checks the creator before the status. -/
theorem C6_counterexample :
    sampleRoom.status ≠ .Waiting ∧ sampleRoom.creator ≠ some 9 ∧
    (execute_operation sampleRoom .StartDraft (some 9)).result = .error .NotCreator ∧
    (execute_operation sampleRoom .StartDraft (some 9)).result ≠ .error .NotWaiting := by
  decide

/-- C6 amended: `StartDraft` fails `NotCreator` whenever the caller is not
the creator (this check precedes the status check, so a non-creator in a
non-Waiting room gets `NotCreator`); when the caller is the creator and
the status is not `Waiting` it fails `NotWaiting`; on success it populates
the pool from the fixed catalog, sets status `Drafting`, `current_turn` 0
and `round` 1. -/
theorem C6_start_draft_amended (s : DraftRoom) (caller : Owner) :
    (s.creator ≠ some caller →
      execute_operation s .StartDraft (some caller) = ⟨.error .NotCreator, s⟩) ∧
    (s.creator = some caller → s.status ≠ .Waiting →
      execute_operation s .StartDraft (some caller) = ⟨.error .NotWaiting, s⟩) ∧
    (s.creator = some caller → s.status = .Waiting →
      execute_operation s .StartDraft (some caller) =
        ⟨.ok [], { s with pool := initialize_pool, status := .Drafting,
                          current_turn := 0, round := 1 }⟩) := by
  refine ⟨?_, ?_, ?_⟩
  · intro hc
    simp [execute_operation, hc]
  · intro hc hs
    simp [execute_operation, hc, hs]
  · intro hc hs
    simp [execute_operation, hc, hs]

/-- C6 witness: on a concrete waiting room the creator's call succeeds and
a stranger's call fails `NotCreator`. -/
theorem C6_start_draft_amended_witness :
    execute_operation waitingRoom .StartDraft (some 9) = ⟨.error .NotCreator, waitingRoom⟩ ∧
    execute_operation waitingRoom .StartDraft (some 4) =
      ⟨.ok [],
        { waitingRoom with
            pool := initialize_pool, status := .Drafting, current_turn := 0, round := 1 }⟩ :=
  ⟨(C6_start_draft_amended waitingRoom 9).1 (by decide),
   (C6_start_draft_amended waitingRoom 4).2.2 (by decide) (by decide)⟩

/-- C7 counterexample: the creator of a fresh capacity-2 room can start
the draft before anyone joins, reaching a Drafting state whose roster has
fewer than 2 players — `StartDraft` performs no minimum-roster check. -/
theorem C7_counterexample :
    Reachable c7_bad ∧ c7_bad.status = .Drafting ∧ c7_bad.players.length < 2 :=
  ⟨Reachable.step (initialRoom 2 1) .StartDraft (some 1) (Reachable.init 2 1),
   by decide, by decide⟩

/-- C7 amended: `StartDraft` has no minimum-roster check, so a room can
enter `Drafting` with fewer than 2 players; nevertheless no operation
indexes out of bounds on an empty roster: `get_current_player` returns
`none` and `PickItem` fails `NotYourTurn` with the state unchanged. -/
theorem C7_empty_roster (s : DraftRoom) (caller : Owner) (item_id : Nat)
    (hempty : s.players = []) :
    (s.creator = some caller → s.status = .Waiting →
      (execute_operation s .StartDraft (some caller)).result = .ok [] ∧
      (execute_operation s .StartDraft (some caller)).state.status = .Drafting ∧
      (execute_operation s .StartDraft (some caller)).state.players = []) ∧
    get_current_player s = none ∧
    (s.status = .Drafting →
      execute_operation s (.PickItem item_id) (some caller) =
        ⟨.error .NotYourTurn, s⟩) := by
  refine ⟨?_, ?_, ?_⟩
  · intro hc hs
    simp [execute_operation, hc, hs, hempty]
  · simp [get_current_player, hempty]
  · intro hs
    exact pick_not_your_turn s caller item_id hs
      (by simp [get_current_player, hempty])

/-- C7 witness: the concrete empty-roster run — the creator starts the
draft of a fresh room, then any pick attempt fails `NotYourTurn` with no
state change. -/
theorem C7_empty_roster_witness :
    ((execute_operation (initialRoom 2 1) .StartDraft (some 1)).result = .ok [] ∧
     (execute_operation (initialRoom 2 1) .StartDraft (some 1)).state.status = .Drafting ∧
     (execute_operation (initialRoom 2 1) .StartDraft (some 1)).state.players = []) ∧
    get_current_player c7_bad = none ∧
    execute_operation c7_bad (.PickItem 3) (some 5) = ⟨.error .NotYourTurn, c7_bad⟩ :=
  ⟨(C7_empty_roster (initialRoom 2 1) 1 3 rfl).1 rfl rfl,
   (C7_empty_roster c7_bad 5 3 (by decide)).2.1,
   (C7_empty_roster c7_bad 5 3 (by decide)).2.2 (by decide)⟩

/-- C5: if any DraftRoom operation fails with a typed error the resulting
state is identical to the state before the operation; in particular
`PickItem` with a nonexistent item id fails `ItemNotFound` with no state
change, and `PickItem` by a non-active player fails `NotYourTurn` with no
state change even when the item exists. -/
theorem C5_error_no_mutation (s : DraftRoom) (op : DraftRoomOperation) (g : Option Owner)
    (e : DraftRoomError) (caller : Owner) (item_id : Nat) :
    ((execute_operation s op g).result = .error e → (execute_operation s op g).state = s) ∧
    (s.status = .Drafting → get_current_player s = some caller →
      (∀ it ∈ s.pool, it.id ≠ item_id) →
      execute_operation s (.PickItem item_id) (some caller) =
        ⟨.error .ItemNotFound, s⟩) ∧
    (s.status = .Drafting → get_current_player s ≠ some caller →
      execute_operation s (.PickItem item_id) (some caller) =
        ⟨.error .NotYourTurn, s⟩) := by
  refine ⟨state_unchanged_of_error s op g e, ?_, pick_not_your_turn s caller item_id⟩
  intro hstat hcp hno
  have hrf : removeFirst item_id s.pool = none := removeFirst_eq_none _ _ hno
  simp [execute_operation, hstat, hcp, hrf]

/-- C5 witness: on a concrete drafting room, a wrong-caller pick fails
`NotYourTurn` and an absent-item pick fails `ItemNotFound`, both leaving
the state unchanged. -/
theorem C5_error_no_mutation_witness :
    ((execute_operation sampleRoom (.PickItem 1) (some 9)).state = sampleRoom) ∧
    execute_operation sampleRoom (.PickItem 99) (some 4) =
      ⟨.error .ItemNotFound, sampleRoom⟩ ∧
    execute_operation sampleRoom (.PickItem 1) (some 9) =
      ⟨.error .NotYourTurn, sampleRoom⟩ :=
  ⟨(C5_error_no_mutation sampleRoom (.PickItem 1) (some 9) .NotYourTurn 9 1).1 (by decide),
   (C5_error_no_mutation sampleRoom (.PickItem 99) (some 4) .ItemNotFound 4 99).2.1
     (by decide) (by decide) (by decide),
   (C5_error_no_mutation sampleRoom (.PickItem 1) (some 9) .NotYourTurn 9 1).2.2
     (by decide) (by decide)⟩

/-- C8: `JoinRoom` fails `NotWaiting` whenever the status is not `Waiting`
(regardless of capacity headroom); in `Waiting` it fails `RoomFull` when
the roster is at capacity and `AlreadyJoined` when the caller already
joined; on success it appends the caller, creates an empty pick list for
the caller, and the room stays `Waiting`. -/
theorem C8_join_room (s : DraftRoom) (caller : Owner) :
    (s.status ≠ .Waiting →
      execute_operation s .JoinRoom (some caller) = ⟨.error .NotWaiting, s⟩) ∧
    (s.status = .Waiting → s.players.length = s.max_players →
      execute_operation s .JoinRoom (some caller) = ⟨.error .RoomFull, s⟩) ∧
    (s.status = .Waiting → s.players.length < s.max_players → caller ∈ s.players →
      execute_operation s .JoinRoom (some caller) = ⟨.error .AlreadyJoined, s⟩) ∧
    (s.status = .Waiting → s.players.length < s.max_players → caller ∉ s.players →
      execute_operation s .JoinRoom (some caller) =
        ⟨.ok [], { s with players := s.players ++ [caller],
                          picks := mapInsert s.picks caller [] }⟩ ∧
      (execute_operation s .JoinRoom (some caller)).state.status = .Waiting ∧
      (execute_operation s .JoinRoom (some caller)).state.players =
        s.players ++ [caller] ∧
      mapGet (execute_operation s .JoinRoom (some caller)).state.picks caller =
        some []) := by
  refine ⟨?_, ?_, ?_, ?_⟩
  · intro hs
    simp [execute_operation, hs]
  · intro hs hfull
    simp [execute_operation, hs, hfull]
  · intro hs hlt hmem
    have hnf : ¬ s.players.length ≥ s.max_players := by omega
    simp [execute_operation, hs, hnf, List.elem_iff, hmem]
  · intro hs hlt hmem
    have hnf : ¬ s.players.length ≥ s.max_players := by omega
    have hj : execute_operation s .JoinRoom (some caller) =
        ⟨.ok [], { s with players := s.players ++ [caller],
                          picks := mapInsert s.picks caller [] }⟩ := by
      simp [execute_operation, hs, hnf, List.elem_iff, hmem]
    refine ⟨hj, ?_, ?_, ?_⟩
    · rw [hj]
      exact hs
    · rw [hj]
    · rw [hj]
      exact mapGet_mapInsert_self s.picks caller []

/-- C8 witness: concrete rooms exercising all four branches — join of a
drafting room fails `NotWaiting`, of a full waiting room fails `RoomFull`,
a rejoin fails `AlreadyJoined` and a fresh join succeeds. -/
theorem C8_join_room_witness :
    execute_operation sampleRoom .JoinRoom (some 5) = ⟨.error .NotWaiting, sampleRoom⟩ ∧
    execute_operation fullRoom .JoinRoom (some 5) = ⟨.error .RoomFull, fullRoom⟩ ∧
    execute_operation waitingRoom .JoinRoom (some 4) =
      ⟨.error .AlreadyJoined, waitingRoom⟩ ∧
    execute_operation waitingRoom .JoinRoom (some 9) =
      ⟨.ok [],
        { waitingRoom with
            players := waitingRoom.players ++ [9],
            picks := mapInsert waitingRoom.picks 9 [] }⟩ :=
  ⟨(C8_join_room sampleRoom 5).1 (by decide),
   (C8_join_room fullRoom 5).2.1 (by decide) (by decide),
   (C8_join_room waitingRoom 4).2.2.1 (by decide) (by decide) (by decide),
   ((C8_join_room waitingRoom 9).2.2.2 (by decide) (by decide) (by decide)).1⟩

/-- C1: in a Drafting room with non-empty roster of length `n`, the active
player is `players[current_turn mod n]` in odd rounds and
`players[(n-1) - (current_turn mod n)]` in even rounds — so over a single
round the active players are `players[0..n-1]` in order for odd rounds and
in exact reverse for even rounds — and `PickItem` by any caller other than
the active player fails `NotYourTurn`. -/
theorem C1_snake_order (s : DraftRoom) (k : Nat) (caller : Owner) (item_id : Nat)
    (hne : s.players ≠ []) :
    (s.round % 2 = 1 →
      get_current_player s = s.players.get? (s.current_turn % s.players.length)) ∧
    (s.round % 2 = 0 →
      get_current_player s =
        s.players.get? (s.players.length - 1 - s.current_turn % s.players.length)) ∧
    (∀ h : k < s.players.length, s.current_turn = k → s.round % 2 = 1 →
      get_current_player s = some (s.players.get ⟨k, h⟩)) ∧
    (∀ h : s.players.length - 1 - k < s.players.length,
      s.current_turn = k → k < s.players.length → s.round % 2 = 0 →
      get_current_player s = some (s.players.get ⟨s.players.length - 1 - k, h⟩)) ∧
    (s.status = .Drafting → get_current_player s ≠ some caller →
      (execute_operation s (.PickItem item_id) (some caller)).result =
        .error .NotYourTurn) := by
  have hE : s.players.isEmpty = false := by
    simp [List.isEmpty_iff, hne]
  have hodd : s.round % 2 = 1 →
      get_current_player s = s.players.get? (s.current_turn % s.players.length) := by
    intro h1
    simp [get_current_player, hE, h1]
  have heven : s.round % 2 = 0 →
      get_current_player s =
        s.players.get? (s.players.length - 1 - s.current_turn % s.players.length) := by
    intro h0
    have h1 : ¬ s.round % 2 = 1 := by omega
    simp [get_current_player, hE, h1]
  refine ⟨hodd, heven, ?_, ?_, ?_⟩
  · intro h hk h1
    rw [hodd h1, hk, Nat.mod_eq_of_lt h]
    exact List.get?_eq_get h
  · intro h hk hklt h0
    rw [heven h0, hk, Nat.mod_eq_of_lt hklt]
    exact List.get?_eq_get h
  · intro hstat hcp
    rw [pick_not_your_turn s caller item_id hstat hcp]

/-- C1 witness: with roster `[4, 9]`, turn 0 of odd round 1 activates
player 4, turn 0 of even round 2 activates player 9 (exact reversal), and
a pick by the non-active player fails `NotYourTurn`. -/
theorem C1_snake_order_witness :
    get_current_player sampleRoom = some 4 ∧
    get_current_player round2Room = some 9 ∧
    (execute_operation sampleRoom (.PickItem 1) (some 9)).result =
      .error .NotYourTurn := by
  refine ⟨?_, ?_, ?_⟩
  · rw [(C1_snake_order sampleRoom 0 9 1 (by decide)).2.2.1 (by decide) (by decide)
      (by decide)]
    rfl
  · rw [(C1_snake_order round2Room 0 4 1 (by decide)).2.2.2.1 (by decide) (by decide)
      (by decide) (by decide)]
    rfl
  · exact (C1_snake_order sampleRoom 0 9 1 (by decide)).2.2.2.2 (by decide) (by decide)

/-- C2: a successful `PickItem(item_id)` removes the unique pool entry
with that id, appends it to the caller's pick list, and advances the turn:
`current_turn` is incremented; when the incremented counter equals the
roster size it resets to 0 and `round` increments; and when the resulting
round exceeds `max_rounds` the status becomes `Finished`. -/
theorem C2_pick_effect (s : DraftRoom) (caller : Owner) (item_id : Nat)
    (msgs : List DraftRoomMessage)
    (hsucc : (execute_operation s (.PickItem item_id) (some caller)).result = .ok msgs)
    (hturn : s.current_turn < s.players.length)
    (hnodup : (s.pool.map DraftItem.id).Nodup) :
    ∃ item pool',
      removeFirst item_id s.pool = some (item, pool') ∧
      item ∈ s.pool ∧ item.id = item_id ∧
      (∀ j ∈ s.pool, j.id = item_id → j = item) ∧
      (∃ l1 l2, s.pool = l1 ++ item :: l2 ∧ pool' = l1 ++ l2) ∧
      (execute_operation s (.PickItem item_id) (some caller)).state =
        (if s.current_turn + 1 = s.players.length then
          (if s.round + 1 > s.max_rounds then
            { s with pool := pool',
                     picks := mapInsert s.picks caller
                       ((mapGet s.picks caller).getD [] ++ [item]),
                     current_turn := 0, round := s.round + 1, status := .Finished }
           else
            { s with pool := pool',
                     picks := mapInsert s.picks caller
                       ((mapGet s.picks caller).getD [] ++ [item]),
                     current_turn := 0, round := s.round + 1 })
         else
          { s with pool := pool',
                   picks := mapInsert s.picks caller
                     ((mapGet s.picks caller).getD [] ++ [item]),
                   current_turn := s.current_turn + 1 }) := by
  by_cases hstat : s.status = .Drafting
  case neg =>
    exfalso
    simp [execute_operation, hstat] at hsucc
  cases hcp : get_current_player s with
  | none =>
    exfalso
    simp [execute_operation, hstat, hcp] at hsucc
  | some cp =>
    by_cases hc : cp = caller
    case neg =>
      exfalso
      have hnyt := pick_not_your_turn s caller item_id hstat (by rw [hcp]; simp [hc])
      rw [hnyt] at hsucc
      simp at hsucc
    subst hc
    cases hrf : removeFirst item_id s.pool with
    | none =>
      exfalso
      simp [execute_operation, hstat, hcp, hrf] at hsucc
    | some pr =>
      obtain ⟨item, pool'⟩ := pr
      obtain ⟨hid, l1, l2, hdecomp, hpool', hno⟩ :=
        removeFirst_some item_id s.pool item pool' hrf
      have hmem : item ∈ s.pool := by rw [hdecomp]; simp
      have huniq : ∀ j ∈ s.pool, j.id = item_id → j = item := by
        intro j hj hjid
        exact List.inj_on_of_nodup_map hnodup hj hmem (by rw [hjid, hid])
      have hexec : execute_operation s (.PickItem item_id) (some cp) =
          ⟨.ok [], advance_turn
            { s with pool := pool',
                     picks := mapInsert s.picks cp
                       ((mapGet s.picks cp).getD [] ++ [item]) }⟩ := by
        simp [execute_operation, hstat, hcp, hrf]
      refine ⟨item, pool', rfl, hmem, hid, huniq, ⟨l1, l2, hdecomp, hpool'⟩, ?_⟩
      rw [hexec]
      show advance_turn _ = _
      simp only [advance_turn]
      by_cases hwrap : s.current_turn + 1 = s.players.length
      · have hge : s.current_turn + 1 ≥ s.players.length := by omega
        rw [if_pos hge, if_pos hwrap]
      · have hge : ¬ s.current_turn + 1 ≥ s.players.length := by omega
        rw [if_neg hge, if_neg hwrap]

/-- C2 witness: player 4 successfully picks item 7 in a concrete
two-player drafting room. -/
theorem C2_pick_effect_witness :
    ∃ item pool',
      removeFirst 7 sampleRoom.pool = some (item, pool') ∧
      item ∈ sampleRoom.pool ∧ item.id = 7 ∧
      (∀ j ∈ sampleRoom.pool, j.id = 7 → j = item) ∧
      (∃ l1 l2, sampleRoom.pool = l1 ++ item :: l2 ∧ pool' = l1 ++ l2) ∧
      (execute_operation sampleRoom (.PickItem 7) (some 4)).state =
        (if sampleRoom.current_turn + 1 = sampleRoom.players.length then
          (if sampleRoom.round + 1 > sampleRoom.max_rounds then
            { sampleRoom with
                pool := pool',
                picks := mapInsert sampleRoom.picks 4
                  ((mapGet sampleRoom.picks 4).getD [] ++ [item]),
                current_turn := 0, round := sampleRoom.round + 1,
                status := .Finished }
           else
            { sampleRoom with
                pool := pool',
                picks := mapInsert sampleRoom.picks 4
                  ((mapGet sampleRoom.picks 4).getD [] ++ [item]),
                current_turn := 0, round := sampleRoom.round + 1 })
         else
          { sampleRoom with
              pool := pool',
              picks := mapInsert sampleRoom.picks 4
                ((mapGet sampleRoom.picks 4).getD [] ++ [item]),
              current_turn := sampleRoom.current_turn + 1 }) :=
  C2_pick_effect sampleRoom 4 7 [] (by decide) (by decide) (by decide)

/-- Bound on the snake-draft active index. -/
theorem activeIdx_lt (n k : Nat) (hn : 0 < n) : activeIdx n k < n := by
  unfold activeIdx
  have hm : k % n < n := Nat.mod_lt _ hn
  split_ifs <;> omega

/-- `get_current_player` computes the snake-draft index `activeIdx` when
the turn and round counters stand at `k % n` and `k / n + 1`. -/
theorem get_current_player_eq (s : DraftRoom) (k : Nat)
    (hne : s.players ≠ []) (ht : s.current_turn = k % s.players.length)
    (hrd : s.round = k / s.players.length + 1) :
    get_current_player s = s.players.get? (activeIdx s.players.length k) := by
  have hn : 0 < s.players.length := List.length_pos.mpr hne
  have hE : s.players.isEmpty = false := by simp [List.isEmpty_iff, hne]
  have hmm : k % s.players.length % s.players.length = k % s.players.length :=
    Nat.mod_eq_of_lt (Nat.mod_lt _ hn)
  simp only [get_current_player, hE, Bool.false_eq_true, if_false, ht, hrd, activeIdx, hmm]

/-- Field-level description of `advance_turn`. -/
theorem advance_turn_fields (s : DraftRoom) :
    (advance_turn s).players = s.players ∧
    (advance_turn s).max_players = s.max_players ∧
    (advance_turn s).max_rounds = s.max_rounds ∧
    (advance_turn s).pool = s.pool ∧
    (advance_turn s).picks = s.picks ∧
    (advance_turn s).creator = s.creator ∧
    (advance_turn s).current_turn =
      (if s.current_turn + 1 ≥ s.players.length then 0 else s.current_turn + 1) ∧
    (advance_turn s).round =
      (if s.current_turn + 1 ≥ s.players.length then s.round + 1 else s.round) ∧
    (advance_turn s).status =
      (if s.current_turn + 1 ≥ s.players.length ∧ s.round + 1 > s.max_rounds
        then .Finished else s.status) := by
  unfold advance_turn
  by_cases h1 : s.current_turn + 1 ≥ s.players.length
  · by_cases h2 : s.round + 1 > s.max_rounds
    · simp [h1, h2]
    · simp [h1, h2]
  · simp [h1]

/-- Inversion of a successful `PickItem`: the room was Drafting, the
caller was the active player, an item matched, and the new state is
`advance_turn` of the state with the item moved. -/
theorem pick_success_inversion (s : DraftRoom) (caller : Owner) (item_id : Nat)
    (msgs : List DraftRoomMessage) (s'' : DraftRoom)
    (hexec : execute_operation s (.PickItem item_id) (some caller) = ⟨.ok msgs, s''⟩) :
    s.status = .Drafting ∧ get_current_player s = some caller ∧
    ∃ item pool', removeFirst item_id s.pool = some (item, pool') ∧
      s'' = advance_turn
        { s with pool := pool',
                 picks := mapInsert s.picks caller
                   ((mapGet s.picks caller).getD [] ++ [item]) } := by
  by_cases hstat : s.status = .Drafting
  case neg =>
    exfalso
    simp [execute_operation, hstat] at hexec
  cases hcp : get_current_player s with
  | none =>
    exfalso
    simp [execute_operation, hstat, hcp] at hexec
  | some cp =>
    by_cases hc : cp = caller
    case neg =>
      exfalso
      rw [pick_not_your_turn s caller item_id hstat (by rw [hcp]; simp [hc])] at hexec
      simp at hexec
    subst hc
    cases hrf : removeFirst item_id s.pool with
    | none =>
      exfalso
      simp [execute_operation, hstat, hcp, hrf] at hexec
    | some pr =>
      obtain ⟨item, pool'⟩ := pr
      have hstep : execute_operation s (.PickItem item_id) (some cp) =
          ⟨.ok [], advance_turn
            { s with pool := pool',
                     picks := mapInsert s.picks cp
                       ((mapGet s.picks cp).getD [] ++ [item]) }⟩ := by
        simp [execute_operation, hstat, hcp, hrf]
      rw [hstep] at hexec
      simp only [ExecResult.mk.injEq, Except.ok.injEq] at hexec
      exact ⟨hstat, rfl, item, pool', rfl, hexec.2.symm⟩

/-- One successful pick preserves the fresh-draft invariant `C3Inv`,
advancing the pick counter from `k` to `k + 1`. -/
theorem c3_inv_step (P : List Owner) (r k : Nat) (s' s'' : DraftRoom)
    (hn : 0 < P.length) (hnodup : P.Nodup) (hk : k < P.length * r)
    (caller : Owner) (item_id : Nat) (msgs : List DraftRoomMessage)
    (hinv : C3Inv P r k s')
    (hexec : execute_operation s' (.PickItem item_id) (some caller) = ⟨.ok msgs, s''⟩) :
    C3Inv P r (k + 1) s'' := by
  obtain ⟨hP, hr, ht, hrd, hst, hcnt⟩ := hinv
  obtain ⟨hstat, hcp, item, pool', hrf, hs''⟩ :=
    pick_success_inversion s' caller item_id msgs s'' hexec
  have hstat' : s'.status = .Drafting := hstat
  have hne : s'.players ≠ [] := by
    rw [hP]
    exact List.ne_nil_of_length_pos hn
  have hmlt : k % P.length < P.length := Nat.mod_lt _ hn
  have hidx : activeIdx P.length k < P.length := activeIdx_lt P.length k hn
  obtain ⟨hmod, hdiv⟩ := succ_mod_div P.length k hn
  have hgp : get_current_player s' =
      s'.players.get? (activeIdx s'.players.length k) :=
    get_current_player_eq s' k hne (by rw [hP]; exact ht) (by rw [hP]; exact hrd)
  have hcallerP : P.get ⟨activeIdx P.length k, hidx⟩ = caller := by
    rw [hgp, hP] at hcp
    rw [List.get?_eq_get hidx] at hcp
    exact Option.some.inj hcp
  have hnewlen : ∀ i : Fin P.length,
      ((mapGet (mapInsert s'.picks caller
          ((mapGet s'.picks caller).getD [] ++ [item])) (P.get i)).getD []).length
        = expected_count P.length (k + 1) i := by
    intro i
    rw [expected_count_step P.length k i hn i.isLt]
    by_cases hieq : (i : Nat) = activeIdx P.length k
    · have hg : P.get i = caller := by
        rw [← hcallerP]
        congr 1
        exact Fin.ext hieq
      rw [hg, mapGet_mapInsert_self]
      simp only [Option.getD_some, List.length_append, List.length_singleton]
      rw [if_pos hieq]
      have hc := hcnt ⟨activeIdx P.length k, hidx⟩
      rw [hcallerP] at hc
      unfold pickLen at hc
      dsimp only at hc
      rw [hieq]
      omega
    · have hneq : caller ≠ P.get i := by
        rw [← hcallerP]
        intro hcon
        have heq := (List.Nodup.get_inj_iff hnodup).mp hcon
        exact hieq (by rw [← heq])
      rw [mapGet_mapInsert_ne _ _ _ _ hneq, if_neg hieq]
      have hc := hcnt i
      unfold pickLen at hc
      omega
  obtain ⟨f1, f2, f3, f4, f5, f6, f7, f8, f9⟩ := advance_turn_fields
    { s' with pool := pool',
              picks := mapInsert s'.picks caller
                ((mapGet s'.picks caller).getD [] ++ [item]) }
  dsimp only at f1 f3 f5 f7 f8 f9
  refine ⟨?_, ?_, ?_, ?_, ?_, ?_⟩
  · rw [hs'', f1]
    exact hP
  · rw [hs'', f3]
    exact hr
  · rw [hs'', f7, ht, hP, hmod]
    by_cases hw : k % P.length + 1 = P.length
    · rw [if_pos (by omega : k % P.length + 1 ≥ P.length), if_pos hw]
    · rw [if_neg (by omega : ¬ k % P.length + 1 ≥ P.length), if_neg hw]
  · rw [hs'', f8, ht, hrd, hP, hdiv]
    by_cases hw : k % P.length + 1 = P.length
    · rw [if_pos (by omega : k % P.length + 1 ≥ P.length), if_pos hw]
    · rw [if_neg (by omega : ¬ k % P.length + 1 ≥ P.length), if_neg hw]
  · rw [hs'', f9, ht, hrd, hP, hr, hstat']
    by_cases hw : k % P.length + 1 = P.length
    · by_cases hfin : k / P.length + 1 + 1 > r
      · have hdm := Nat.div_add_mod k P.length
        have hdivlt : k / P.length < r := Nat.div_lt_of_lt_mul hk
        have hreq : k + 1 = P.length * r := by
          have hr1 : k / P.length + 1 = r := by omega
          calc k + 1 = P.length * (k / P.length) + (k % P.length + 1) := by omega
            _ = P.length * (k / P.length) + P.length := by rw [hw]
            _ = P.length * (k / P.length + 1) := by rw [Nat.mul_succ]
            _ = P.length * r := by rw [hr1]
        rw [if_pos ⟨by omega, hfin⟩, if_pos hreq]
      · have hne2 : k + 1 ≠ P.length * r := by
          intro hcon
          have hdq : (k + 1) / P.length = r := by
            rw [hcon]
            exact Nat.mul_div_cancel_left r hn
          rw [hdiv, if_pos hw] at hdq
          omega
        rw [if_neg (fun hand => hfin hand.2), if_neg hne2]
    · have hne2 : k + 1 ≠ P.length * r := by
        intro hcon
        have h0 : (k + 1) % P.length = 0 := by
          rw [hcon]
          exact Nat.mul_mod_right _ _
        rw [hmod, if_neg hw] at h0
        omega
      rw [if_neg (fun hand => absurd hand.1 (by omega)), if_neg hne2]
  · intro i
    unfold pickLen
    rw [hs'', f5]
    exact hnewlen i

/-- The fresh-draft invariant holds along any run of successful picks. -/
theorem c3_inv_run (s0 : DraftRoom) (r : Nat)
    (hn : 0 < s0.players.length) (hnodup : s0.players.Nodup)
    (hinv0 : C3Inv s0.players r 0 s0) :
    ∀ k s1, SuccRun s0 k s1 → k ≤ s0.players.length * r →
      C3Inv s0.players r k s1 := by
  intro k s1 hrun
  induction hrun with
  | zero =>
    intro _
    exact hinv0
  | succ caller item_id msgs hrun hexec ih =>
    intro hk
    exact c3_inv_step s0.players r _ _ _ hn hnodup (by omega) caller item_id msgs
      (ih (by omega)) hexec

/-- C3: in a fresh draft with `n` joined players, `max_rounds = r` and a
pool of at least `n * r` items, the room is still Drafting after fewer
than `n * r` successful picks and reaches `Finished` exactly after
`n * r` of them, at which point every player holds exactly `r` picks. -/
theorem C3_draft_completion (s0 : DraftRoom) (n r : Nat)
    (hpl : s0.players.length = n) (hn1 : 1 ≤ n) (hmr : s0.max_rounds = r) (hr1 : 1 ≤ r)
    (hnodup : s0.players.Nodup) (hstat : s0.status = .Drafting)
    (hturn : s0.current_turn = 0) (hround : s0.round = 1)
    (hpool : n * r ≤ s0.pool.length)
    (hempty : ∀ p ∈ s0.players, pickLen s0 p = 0) :
    (∀ sF, SuccRun s0 (n * r) sF →
      sF.status = .Finished ∧ ∀ p ∈ s0.players, pickLen sF p = r) ∧
    (∀ k s1, k < n * r → SuccRun s0 k s1 → s1.status = .Drafting) := by
  subst hpl
  subst hmr
  have hn : 0 < s0.players.length := hn1
  have hnr : 0 < s0.players.length * s0.max_rounds := Nat.mul_pos hn1 hr1
  have hinv0 : C3Inv s0.players s0.max_rounds 0 s0 := by
    refine ⟨rfl, rfl, ?_, ?_, ?_, ?_⟩
    · rw [hturn, Nat.zero_mod]
    · rw [hround, Nat.zero_div]
    · rw [hstat, if_neg (by omega)]
    · intro i
      have h0 : expected_count s0.players.length 0 ↑i = 0 := by
        unfold expected_count
        simp
      rw [h0]
      exact hempty _ (List.get_mem _ _ _)
  constructor
  · intro sF hrunF
    have hinvF := c3_inv_run s0 s0.max_rounds hn hnodup hinv0 _ sF hrunF (le_refl _)
    obtain ⟨hP, hr, ht, hrd, hstF, hcntF⟩ := hinvF
    constructor
    · rw [hstF, if_pos rfl]
    · intro p hp
      obtain ⟨i, hgi⟩ := List.mem_iff_get.mp hp
      have hfinal : expected_count s0.players.length
          (s0.players.length * s0.max_rounds) ↑i = s0.max_rounds := by
        unfold expected_count
        rw [Nat.mul_div_cancel_left _ hn, Nat.mul_mod_right]
        have hi : ↑i < s0.players.length := i.isLt
        split_ifs <;> omega
      rw [← hgi, hcntF i, hfinal]
  · intro k s1 hklt hrun
    have hinvk := c3_inv_run s0 s0.max_rounds hn hnodup hinv0 k s1 hrun (by omega)
    obtain ⟨_, _, _, _, hstk, _⟩ := hinvk
    rw [hstk, if_neg (by omega)]

/-- C3 witness: in the one-player one-round room the single successful
pick finishes the draft and leaves the player with exactly one pick. -/
theorem C3_draft_completion_witness :
    tinyFinal.status = .Finished ∧ ∀ p ∈ tinyRoom.players, pickLen tinyFinal p = 1 :=
  (C3_draft_completion tinyRoom 1 1 (by decide) (by decide) (by decide) (by decide)
      (by decide) (by decide) (by decide) (by decide) (by decide) (by decide)).1
    tinyFinal (SuccRun.succ 7 1 [] SuccRun.zero (by decide))

/-- A key bound by no entry reads back as `none`. -/
theorem mapGet_eq_none (m : PicksMap) (k : Owner)
    (h : ∀ pr ∈ m, pr.1 ≠ k) : mapGet m k = none := by
  induction m with
  | nil => rfl
  | cons pr rest ih =>
    obtain ⟨k', v'⟩ := pr
    simp only [mapGet]
    rw [if_neg (h (k', v') (by simp))]
    exact ih (fun q hq => h q (List.mem_cons_of_mem _ hq))

/-- Every entry of `mapInsert m k v` is the inserted one or an old one. -/
theorem mem_mapInsert (m : PicksMap) (k : Owner) (v : List DraftItem) :
    ∀ pr ∈ mapInsert m k v, pr = (k, v) ∨ pr ∈ m := by
  induction m with
  | nil =>
    intro pr hpr
    simp only [mapInsert] at hpr
    left
    simpa using hpr
  | cons q rest ih =>
    obtain ⟨k', v'⟩ := q
    intro pr hpr
    simp only [mapInsert] at hpr
    by_cases hk : k' = k
    · rw [if_pos hk] at hpr
      rcases List.mem_cons.mp hpr with h1 | h1
      · exact Or.inl h1
      · exact Or.inr (List.mem_cons_of_mem _ h1)
    · rw [if_neg hk] at hpr
      rcases List.mem_cons.mp hpr with h1 | h1
      · exact Or.inr (h1 ▸ List.mem_cons_self _ _)
      · rcases ih pr h1 with h2 | h2
        · exact Or.inl h2
        · exact Or.inr (List.mem_cons_of_mem _ h2)

/-- Key list of `mapInsert`: unchanged when the key is present, else the
key is appended. -/
theorem mapInsert_keys (m : PicksMap) (k : Owner) (v : List DraftItem) :
    (mapInsert m k v).map Prod.fst =
      (if k ∈ m.map Prod.fst then m.map Prod.fst else m.map Prod.fst ++ [k]) := by
  induction m with
  | nil => simp [mapInsert]
  | cons q rest ih =>
    obtain ⟨k', v'⟩ := q
    simp only [mapInsert]
    by_cases hk : k' = k
    · subst hk
      rw [if_pos rfl]
      simp
    · rw [if_neg hk]
      simp only [List.map_cons]
      rw [ih]
      by_cases hmem : k ∈ rest.map Prod.fst
      · rw [if_pos hmem, if_pos (by simp [hmem])]
      · rw [if_neg hmem, if_neg (by simp [hmem, Ne.symm hk])]
        simp

/-- Inserting an absent key appends the fresh binding at the end. -/
theorem mapInsert_not_mem (m : PicksMap) (k : Owner) (v : List DraftItem)
    (h : ∀ pr ∈ m, pr.1 ≠ k) : mapInsert m k v = m ++ [(k, v)] := by
  induction m with
  | nil => rfl
  | cons q rest ih =>
    obtain ⟨k', v'⟩ := q
    simp only [mapInsert]
    rw [if_neg (h (k', v') (by simp))]
    rw [ih (fun q hq => h q (List.mem_cons_of_mem _ hq))]
    simp

/-- Overwriting `k`'s pick list with one more item appended permutes the
flattened values to that item consed on the old flattened values. -/
theorem mapInsert_flatten_perm (m : PicksMap) (k : Owner) (x : DraftItem) :
    List.Perm
      (((mapInsert m k ((mapGet m k).getD [] ++ [x])).map Prod.snd).flatten)
      (x :: (m.map Prod.snd).flatten) := by
  induction m with
  | nil => simp [mapInsert, mapGet]
  | cons q rest ih =>
    obtain ⟨k', v'⟩ := q
    by_cases hk : k' = k
    · subst hk
      simp only [mapGet, mapInsert, if_pos rfl, List.map_cons, List.flatten_cons,
        Option.getD_some]
      have h1 : List.Perm ((v' ++ [x]) ++ (rest.map Prod.snd).flatten)
          ((x :: v') ++ (rest.map Prod.snd).flatten) :=
        (List.perm_append_singleton x v').append_right _
      simp only [List.cons_append] at h1
      exact h1
    · simp only [mapGet, mapInsert, if_neg hk, List.map_cons, List.flatten_cons]
      exact (List.Perm.append_left v' ih).trans List.perm_middle

/-- The active player is always a member of the roster. -/
theorem get_current_player_mem (s : DraftRoom) (c : Owner)
    (h : get_current_player s = some c) : c ∈ s.players := by
  unfold get_current_player at h
  by_cases hE : s.players.isEmpty
  · rw [if_pos hE] at h
    cases h
  · rw [if_neg hE] at h
    exact List.get?_mem h

/-- A successful `removeFirst` splits the pool into the removed item and
the remainder, as a permutation. -/
theorem removeFirst_perm (item_id : Nat) (l : List DraftItem) (x : DraftItem)
    (l' : List DraftItem) (h : removeFirst item_id l = some (x, l')) :
    List.Perm l (x :: l') := by
  obtain ⟨-, l1, l2, hdec, hrem, -⟩ := removeFirst_some item_id l x l' h
  rw [hdec, hrem]
  exact List.perm_middle

/-- Sum of pick-list lengths over a duplicate-free roster covering the
map's keys equals the sum over the map's entries. -/
theorem sum_pickLen_eq (m : PicksMap) (P : List Owner)
    (hkeys : (m.map Prod.fst).Nodup) (hdom : ∀ pr ∈ m, pr.1 ∈ P) (hP : P.Nodup) :
    (P.map (fun p => ((mapGet m p).getD []).length)).sum =
      (m.map (fun pr => pr.2.length)).sum := by
  induction m generalizing P with
  | nil =>
    simp only [List.map_nil, List.sum_nil]
    apply List.sum_eq_zero
    intro x hx
    obtain ⟨p, -, rfl⟩ := List.mem_map.mp hx
    simp [mapGet]
  | cons q rest ih =>
    obtain ⟨key, v⟩ := q
    simp only [List.map_cons] at hkeys
    have hkc := List.nodup_cons.mp hkeys
    have hkey_not : key ∉ rest.map Prod.fst := hkc.1
    have hkeys' : (rest.map Prod.fst).Nodup := hkc.2
    obtain ⟨P1, P2, hPsplit⟩ := List.append_of_mem (hdom (key, v) (by simp))
    subst hPsplit
    have hPparts := hP
    simp only [List.nodup_append, List.nodup_cons] at hPparts
    have hnot1 : key ∉ P1 := fun hmem => hPparts.2.2 hmem (List.mem_cons_self _ _)
    have hnot2 : key ∉ P2 := hPparts.2.1.1
    have hrestnone : mapGet rest key = none := by
      apply mapGet_eq_none
      intro pr hpr hcon
      exact hkey_not (hcon ▸ List.mem_map_of_mem Prod.fst hpr)
    have hmap1 : ∀ p ∈ P1,
        ((mapGet ((key, v) :: rest) p).getD []).length =
          ((mapGet rest p).getD []).length := by
      intro p hp
      have hne : key ≠ p := fun hcon => hnot1 (hcon ▸ hp)
      simp [mapGet, hne]
    have hmap2 : ∀ p ∈ P2,
        ((mapGet ((key, v) :: rest) p).getD []).length =
          ((mapGet rest p).getD []).length := by
      intro p hp
      have hne : key ≠ p := fun hcon => hnot2 (hcon ▸ hp)
      simp [mapGet, hne]
    have hdom' : ∀ pr ∈ rest, pr.1 ∈ P1 ++ key :: P2 :=
      fun pr hpr => hdom pr (List.mem_cons_of_mem _ hpr)
    have hih := ih (P1 ++ key :: P2) hkeys' hdom' hP
    have hcenter : ((mapGet ((key, v) :: rest) key).getD []).length = v.length := by
      simp [mapGet]
    simp only [List.map_append, List.map_cons, List.sum_append, List.sum_cons] at hih ⊢
    rw [List.map_congr_left hmap1, List.map_congr_left hmap2, hcenter]
    rw [hrestnone] at hih
    simp only [Option.getD_none, List.length_nil] at hih
    omega

/-- A flatten of all-empty lists is empty. -/
theorem flatten_eq_nil_of (L : List (List DraftItem)) (h : ∀ l ∈ L, l = []) :
    L.flatten = [] := by
  induction L with
  | nil => rfl
  | cons a rest ih =>
    rw [List.flatten_cons, h a (by simp), List.nil_append]
    exact ih (fun l hl => h l (List.mem_cons_of_mem _ hl))

/-- Every operation maps a structurally good room state to a structurally
good room state. -/
theorem goodstate_step (s : DraftRoom) (op : DraftRoomOperation) (g : Option Owner)
    (h : GoodState s) : GoodState (execute_operation s op g).state := by
  obtain ⟨hnodup, hkeys, hdom, hwait, hperm⟩ := h
  cases hres : (execute_operation s op g).result with
  | error e =>
    rw [state_unchanged_of_error s op g e hres]
    exact ⟨hnodup, hkeys, hdom, hwait, hperm⟩
  | ok msgs =>
    have heta : execute_operation s op g = ⟨.ok msgs, (execute_operation s op g).state⟩ := by
      rw [← hres]
    cases op with
    | FinalizeDraft =>
      by_cases hf : s.status = .Finished
      · have hid : (execute_operation s .FinalizeDraft g).state = s := by
          simp [execute_operation, hf]
        rw [hid]
        exact ⟨hnodup, hkeys, hdom, hwait, hperm⟩
      · exfalso
        simp [execute_operation, hf] at hres
    | JoinRoom =>
      cases g with
      | none =>
        exfalso
        simp [execute_operation] at hres
      | some signer =>
        by_cases hW : s.status = .Waiting
        case neg =>
          exfalso
          simp [execute_operation, hW] at hres
        by_cases hfull : s.players.length ≥ s.max_players
        case pos =>
          exfalso
          simp [execute_operation, hW, hfull] at hres
        by_cases hmem : signer ∈ s.players
        case pos =>
          exfalso
          simp [execute_operation, hW, hfull, List.elem_iff, hmem] at hres
        have hstate : (execute_operation s .JoinRoom (some signer)).state =
            { s with players := s.players ++ [signer],
                     picks := mapInsert s.picks signer [] } := by
          simp [execute_operation, hW, hfull, List.elem_iff, hmem]
        rw [hstate]
        have hfresh : ∀ pr ∈ s.picks, pr.1 ≠ signer :=
          fun pr hpr hcon => hmem (hcon ▸ hdom pr hpr)
        have hins : mapInsert s.picks signer [] = s.picks ++ [(signer, [])] :=
          mapInsert_not_mem _ _ _ hfresh
        refine ⟨?_, ?_, ?_, ?_, ?_⟩
        · simp [List.nodup_append, hnodup, hmem]
        · show (List.map Prod.fst (mapInsert s.picks signer [])).Nodup
          rw [hins]
          simp only [List.map_append, List.map_cons, List.map_nil]
          rw [List.nodup_append]
          refine ⟨hkeys, List.nodup_singleton _, ?_⟩
          intro a ha hb
          obtain ⟨pr, hpr, rfl⟩ := List.mem_map.mp ha
          exact hfresh pr hpr (List.mem_singleton.mp hb)
        · intro pr hpr
          show pr.1 ∈ s.players ++ [signer]
          rw [hins] at hpr
          rcases List.mem_append.mp hpr with h1 | h1
          · exact List.mem_append_left _ (hdom pr h1)
          · rw [List.mem_singleton.mp h1]
            exact List.mem_append_right _ (List.mem_singleton_self _)
        · intro _
          refine ⟨(hwait hW).1, ?_⟩
          intro pr hpr
          rw [hins] at hpr
          rcases List.mem_append.mp hpr with h1 | h1
          · exact (hwait hW).2 pr h1
          · rw [List.mem_singleton.mp h1]
        · intro hcon
          exact absurd hW hcon
    | StartDraft =>
      cases g with
      | none =>
        exfalso
        simp [execute_operation] at hres
      | some signer =>
        by_cases hcr : s.creator = some signer
        case neg =>
          exfalso
          simp [execute_operation, hcr] at hres
        by_cases hW : s.status = .Waiting
        case neg =>
          exfalso
          simp [execute_operation, hcr, hW] at hres
        have hstate : (execute_operation s .StartDraft (some signer)).state =
            { s with pool := initialize_pool, status := .Drafting,
                     current_turn := 0, round := 1 } := by
          simp [execute_operation, hcr, hW]
        rw [hstate]
        refine ⟨hnodup, hkeys, hdom, ?_, ?_⟩
        · intro hcon
          cases hcon
        · intro _
          show List.Perm (initialize_pool ++ (s.picks.map Prod.snd).flatten) initialize_pool
          have hflat : (s.picks.map Prod.snd).flatten = [] := by
            apply flatten_eq_nil_of
            intro l hl
            obtain ⟨pr, hpr, rfl⟩ := List.mem_map.mp hl
            exact (hwait hW).2 pr hpr
          rw [hflat, List.append_nil]
    | PickItem item_id =>
      cases g with
      | none =>
        exfalso
        simp [execute_operation] at hres
      | some caller =>
        obtain ⟨hstat, hcp, item, pool', hrf, hs''⟩ :=
          pick_success_inversion s caller item_id msgs _ heta
        have hcmem : caller ∈ s.players := get_current_player_mem s caller hcp
        have hstatne : s.status ≠ .Waiting := by
          rw [hstat]
          intro hcon
          cases hcon
        rw [hs'']
        obtain ⟨f1, f2, f3, f4, f5, f6, f7, f8, f9⟩ := advance_turn_fields
          { s with pool := pool',
                   picks := mapInsert s.picks caller
                     ((mapGet s.picks caller).getD [] ++ [item]) }
        dsimp only at f1 f4 f5 f9
        refine ⟨?_, ?_, ?_, ?_, ?_⟩
        · rw [f1]
          exact hnodup
        · rw [f5, mapInsert_keys]
          split_ifs with hc
          · exact hkeys
          · rw [List.nodup_append]
            refine ⟨hkeys, List.nodup_singleton _, ?_⟩
            intro a ha hb
            exact hc ((List.mem_singleton.mp hb) ▸ ha)
        · intro pr hpr
          rw [f1]
          rw [f5] at hpr
          rcases mem_mapInsert _ _ _ pr hpr with h1 | h1
          · rw [h1]
            exact hcmem
          · exact hdom pr h1
        · intro hcon
          rw [f9] at hcon
          revert hcon
          split
          · intro hcon
            cases hcon
          · rw [hstat]
            intro hcon
            cases hcon
        · intro _
          show List.Perm
            ((advance_turn _).pool ++ ((advance_turn _).picks.map Prod.snd).flatten)
            initialize_pool
          rw [f4, f5]
          have h1 := mapInsert_flatten_perm s.picks caller item
          have h2 := List.Perm.append_left pool' h1
          have h3 : List.Perm (pool' ++ item :: (s.picks.map Prod.snd).flatten)
              (item :: (pool' ++ (s.picks.map Prod.snd).flatten)) := List.perm_middle
          have h4 : List.Perm s.pool (item :: pool') :=
            removeFirst_perm item_id s.pool item pool' hrf
          have h5 : List.Perm (item :: (pool' ++ (s.picks.map Prod.snd).flatten))
              (s.pool ++ (s.picks.map Prod.snd).flatten) :=
            (h4.append_right ((s.picks.map Prod.snd).flatten)).symm
          exact h2.trans (h3.trans (h5.trans (hperm hstatne)))

/-- Every reachable room state is structurally good. -/
theorem reachable_goodstate (s : DraftRoom) (h : Reachable s) : GoodState s := by
  induction h with
  | init mp c =>
    refine ⟨?_, ?_, ?_, ?_, ?_⟩
    · exact List.nodup_nil
    · exact List.nodup_nil
    · intro pr hpr
      cases hpr
    · intro _
      exact ⟨rfl, fun pr hpr => absurd hpr (List.not_mem_nil pr)⟩
    · intro hcon
      exact absurd rfl hcon
  | step s op g hreach ih => exact goodstate_step s op g ih

/-- No operation brings a non-Waiting room back to Waiting. -/
theorem status_not_waiting_step (s : DraftRoom) (op : DraftRoomOperation) (g : Option Owner)
    (h : s.status ≠ .Waiting) : (execute_operation s op g).state.status ≠ .Waiting := by
  cases hres : (execute_operation s op g).result with
  | error e =>
    rw [state_unchanged_of_error s op g e hres]
    exact h
  | ok msgs =>
    have heta : execute_operation s op g = ⟨.ok msgs, (execute_operation s op g).state⟩ := by
      rw [← hres]
    cases op with
    | JoinRoom =>
      exfalso
      cases g with
      | none => simp [execute_operation] at hres
      | some signer =>
        by_cases hW : s.status = .Waiting
        · exact h hW
        · simp [execute_operation, hW] at hres
    | StartDraft =>
      exfalso
      cases g with
      | none => simp [execute_operation] at hres
      | some signer =>
        by_cases hcr : s.creator = some signer
        · by_cases hW : s.status = .Waiting
          · exact h hW
          · simp [execute_operation, hcr, hW] at hres
        · simp [execute_operation, hcr] at hres
    | PickItem item_id =>
      cases g with
      | none =>
        exfalso
        simp [execute_operation] at hres
      | some caller =>
        obtain ⟨hstat, hcp, item, pool', hrf, hs''⟩ :=
          pick_success_inversion s caller item_id msgs _ heta
        rw [hs'']
        obtain ⟨f1, f2, f3, f4, f5, f6, f7, f8, f9⟩ := advance_turn_fields
          { s with pool := pool',
                   picks := mapInsert s.picks caller
                     ((mapGet s.picks caller).getD [] ++ [item]) }
        rw [f9]
        split
        · intro hcon
          cases hcon
        · dsimp only
          rw [hstat]
          intro hcon
          cases hcon
    | FinalizeDraft =>
      by_cases hf : s.status = .Finished
      · have hid : (execute_operation s .FinalizeDraft g).state = s := by
          simp [execute_operation, hf]
        rw [hid]
        exact h
      · exfalso
        simp [execute_operation, hf] at hres

/-- The partition facts of the claim follow from structural goodness
outside `Waiting`. -/
theorem goodstate_partition (s : DraftRoom) (hg : GoodState s)
    (hpost : s.status ≠ .Waiting) :
    (s.pool.length + (s.players.map (pickLen s)).sum = 15) ∧
    ((itemsOf s).map DraftItem.id).Nodup ∧
    (∀ d ∈ initialize_pool, ((itemsOf s).map DraftItem.id).count d.id = 1) := by
  obtain ⟨hnodup, hkeys, hdom, hwait, hperm⟩ := hg
  have hP := hperm hpost
  refine ⟨?_, ?_, ?_⟩
  · have hlen := hP.length_eq
    have h1 : (itemsOf s).length =
        s.pool.length + ((s.picks.map Prod.snd).flatten).length := by
      unfold itemsOf
      rw [List.length_append]
    have h2 : ((s.picks.map Prod.snd).flatten).length
        = (s.picks.map (fun pr => pr.2.length)).sum := by
      rw [List.length_flatten, List.map_map]
      rfl
    have h3 := sum_pickLen_eq s.picks s.players hkeys hdom hnodup
    have hcat : initialize_pool.length = 15 := by rfl
    show s.pool.length +
      (s.players.map (fun p => ((mapGet s.picks p).getD []).length)).sum = 15
    omega
  · exact (hP.map DraftItem.id).nodup_iff.mpr (by decide)
  · intro d hd
    rw [(hP.map DraftItem.id).count_eq d.id]
    exact List.count_eq_one_of_mem (by decide) (List.mem_map_of_mem DraftItem.id hd)

/-- C4: in every reachable state after `StartDraft` (status not
`Waiting`), the pool size plus the players' pick-list lengths totals the
initial pool size 15, every catalog item id occurs exactly once across the
pool and the pick lists, and every DraftRoom operation preserves this
partition. -/
theorem C4_pool_partition (s : DraftRoom) (hreach : Reachable s)
    (hpost : s.status ≠ .Waiting) :
    (s.pool.length + (s.players.map (pickLen s)).sum = 15) ∧
    ((itemsOf s).map DraftItem.id).Nodup ∧
    (∀ d ∈ initialize_pool, ((itemsOf s).map DraftItem.id).count d.id = 1) ∧
    (∀ op g,
      (execute_operation s op g).state.status ≠ .Waiting ∧
      ((execute_operation s op g).state.pool.length +
        ((execute_operation s op g).state.players.map
          (pickLen (execute_operation s op g).state)).sum = 15) ∧
      ((itemsOf (execute_operation s op g).state).map DraftItem.id).Nodup ∧
      (∀ d ∈ initialize_pool,
        ((itemsOf (execute_operation s op g).state).map DraftItem.id).count d.id = 1)) := by
  have hg := reachable_goodstate s hreach
  obtain ⟨ha, hb, hc⟩ := goodstate_partition s hg hpost
  refine ⟨ha, hb, hc, ?_⟩
  intro op g
  have hnw := status_not_waiting_step s op g hpost
  have hg' := goodstate_step s op g hg
  obtain ⟨ha', hb', hc'⟩ := goodstate_partition _ hg' hnw
  exact ⟨hnw, ha', hb', hc'⟩

/-- C4 witness: the partition facts hold at a concrete mid-draft state
reached by two joins, a start, and one pick. -/
theorem C4_pool_partition_witness :
    (demoRoom.pool.length + (demoRoom.players.map (pickLen demoRoom)).sum = 15) ∧
    ((itemsOf demoRoom).map DraftItem.id).Nodup ∧
    (∀ d ∈ initialize_pool, ((itemsOf demoRoom).map DraftItem.id).count d.id = 1) :=
  let h := C4_pool_partition demoRoom
    (Reachable.step _ (.PickItem 7) (some 4)
      (Reachable.step _ .StartDraft (some 4)
        (Reachable.step _ .JoinRoom (some 9)
          (Reachable.step _ .JoinRoom (some 4)
            (Reachable.init 2 4)))))
    (by decide)
  ⟨h.1, h.2.1, h.2.2.1⟩
